import Mathlib

/-
Verification of the Core Stack offline-pack bulk downloader
(`download_corestack_offline_pack.py`).

Shallow embedding: the pure string/path manipulation is translated to Lean
functions on `String`/`List Char`; the filesystem is an association list from
paths to file contents; one network fetch is an oracle value `FetchOutcome`
supplied per attempt; the retry engine, the per-item orchestration loop, and
the manifest writer are explicit state-passing functions over that model.
Python floats appear only as the backoff parameter (always `2.0` at the call
site); the exact values in play (`2.0 * 2**k`, the `60.0` cap) are all exactly
representable, so they are modelled by rationals, on which the arithmetic of
the source is exact.
-/

namespace CoreStackPack

/- ### Character and string helpers (Python semantics, ASCII-faithful) -/

/-- Python whitespace characters relevant here (`str.strip()` / regex `\s`):
space, tab, newline, carriage return, vertical tab, form feed. -/
def pyIsSpace (c : Char) : Bool :=
  c == ' ' || c == '\t' || c == '\n' || c == '\r' || c == '\x0b' || c == '\x0c'

/-- `str.strip()` on the character list: drop whitespace from both ends. -/
def stripChars (cs : List Char) : List Char :=
  ((cs.dropWhile pyIsSpace).reverse.dropWhile pyIsSpace).reverse

/-- Python `str.strip()`. -/
def pyStrip (s : String) : String := String.mk (stripChars s.data)

/-- ASCII `str.lower()` on one character (`A`-`Z` mapped down; the content
types and suffixes compared in the source are ASCII). -/
def lowerChar (c : Char) : Char :=
  if 65 ≤ c.toNat && c.toNat ≤ 90 then Char.ofNat (c.toNat + 32) else c

/-- Python `str.lower()`. -/
def lowerStr (s : String) : String := String.mk (s.data.map lowerChar)

/-- Does `hay` start with `needle`? -/
def charsStart : List Char → List Char → Bool
  | [], _ => true
  | _ :: _, [] => false
  | a :: as, b :: bs => a == b && charsStart as bs

/-- Does the haystack contain `needle` as a contiguous substring?
(Python `needle in hay`.) -/
def charsHave (needle : List Char) : List Char → Bool
  | [] => charsStart needle []
  | c :: cs => charsStart needle (c :: cs) || charsHave needle cs

/-- Python `needle in hay` for strings. -/
def strHas (hay needle : String) : Bool := charsHave needle.data hay.data

/-- Python `":" in s`. -/
def hasColon (s : String) : Bool := s.data.contains ':'

/- ### `pathlib` fragments used by the source -/

/-- Final path component (`Path(p).name`): everything after the last `/`. -/
def pathName (p : String) : String :=
  String.mk ((p.data.reverse.takeWhile (fun c => c ≠ '/')).reverse)

/-- `Path(p).suffix` on the name characters: the last `.`-extension including
the dot; empty when there is no dot, when the only dot leads the name
(hidden file), or when the name ends in a dot. -/
def suffixOfChars (cs : List Char) : List Char :=
  let rev := cs.reverse
  let pre := rev.takeWhile (fun c => c ≠ '.')
  if pre.length == 0 then []
  else if rev.length ≤ pre.length + 1 then []
  else '.' :: pre.reverse

/-- `Path(p).suffix.lower()` as used in the content-type guard. -/
def pathSuffixLower (p : String) : String :=
  lowerStr (String.mk (suffixOfChars (pathName p).data))

/-- `out_path.with_suffix(out_path.suffix + ".part")`.  Replacing the current
suffix by itself plus `".part"` always yields the original path followed by
`".part"` (stem plus suffix is the whole name), so the temporary sibling is
exactly `p ++ ".part"`. -/
def tmpPath (p : String) : String := p ++ ".part"

/-- `s.rstrip("/")` — used on the GeoServer base URL. -/
def rstripSlash (s : String) : String :=
  String.mk ((s.data.reverse.dropWhile (fun c => c == '/')).reverse)

/- ### `_safe_filename` -/

/-- The character class kept by `re.sub(r"[^A-Za-z0-9._-]+", "_", s)`. -/
def isSafeChar (c : Char) : Bool :=
  c.isAlpha || c.isDigit || c == '.' || c == '_' || c == '-'

/-- `re.sub(r"[^A-Za-z0-9._-]+", "_", s)`: every maximal nonempty run of
characters outside the class is replaced by a single underscore.  The flag
records whether the previous character belonged to such a run. -/
def collapseRuns : Bool → List Char → List Char
  | _, [] => []
  | prevRun, c :: cs =>
    if isSafeChar c then c :: collapseRuns false cs
    else if prevRun then collapseRuns true cs
    else '_' :: collapseRuns true cs

/-- `_safe_filename`: strip, collapse unsafe runs to `_`, truncate to 220. -/
def safeFilename (s : String) : String :=
  String.mk ((collapseRuns false (stripChars s.data)).take 220)

/- ### Filesystem model -/

/-- The filesystem: an association list from absolute path to file contents
(text stands in for bytes; the byte count of a chunk is its length).  All
writes performed by the embedded code keep at most one entry per path. -/
abbrev FS := List (String × String)

/-- Content at a path, `none` when no file exists there. -/
def fsLookup (fs : FS) (p : String) : Option String :=
  match fs with
  | [] => none
  | (q, c) :: rest => if q = p then some c else fsLookup rest p

/-- `path.unlink()` / removal: drop any entry at `p`. -/
def fsDelete (fs : FS) (p : String) : FS :=
  fs.filter (fun e => decide (e.1 ≠ p))

/-- Create or overwrite the file at `p` with contents `c`. -/
def fsWrite (fs : FS) (p : String) (c : String) : FS :=
  (p, c) :: fsDelete fs p

/-- `src.replace(dst)` (POSIX rename, overwriting): move the file at `src`
onto `dst`.  If `src` does not exist the call would raise; on every path of
the embedded engine `src` has just been written. -/
def fsReplace (fs : FS) (src dst : String) : FS :=
  match fsLookup fs src with
  | some c => fsWrite (fsDelete fs src) dst c
  | none => fs

/- ### The network oracle and one attempt of `_download_with_retries` -/

/-- What one `session.get` of an attempt does.
`connError ename emsg`: the request itself raises (connection error, read
timeout, or any other exception), `ename` being the exception class name.
`response status contentType chunks interrupted`: a response arrives with the
given status and declared content type; iterating the body yields `chunks`
and then, when `interrupted = some (ename, emsg)`, raises mid-stream after
those chunks (an uninterrupted body is exactly `chunks`). -/
inductive FetchOutcome where
  | connError (ename emsg : String)
  | response (status : Nat) (contentType : String) (chunks : List String)
      (interrupted : Option (String × String))

/-- Result of one attempt: the returned byte count, or the message stored
into `last_err` (`f"{type(e).__name__}: {e}"`). -/
inductive AttemptResult where
  | success (bytes : Nat)
  | failure (err : String)

/-- `f"{type(e).__name__}: {e}"`. -/
def errStr (ename emsg : String) : String := ename ++ ": " ++ emsg

/-- Message of the `requests.exceptions.HTTPError` raised by
`raise_for_status()` on a 4xx/5xx status (text abbreviated to the status
code; no claim depends on the exact phrasing, only on which attempt's
message is kept). -/
def httpErrorMsg (status : Nat) : String :=
  errStr "HTTPError" (toString status)

/-- `r.text[:500].replace("\n", " ")` — the body preview embedded in the
content-mismatch message; `r.text` is the decoded full body. -/
def bodyPreview (chunks : List String) : String :=
  String.mk ((((String.join chunks).data).take 500).map
    (fun c => if c == '\n' then ' ' else c))

/-- The content-mismatch message, as stored into `last_err` after the
`RuntimeError` is caught. -/
def mismatchMsg (ctLower : String) (chunks : List String) : String :=
  "RuntimeError: Unexpected content-type for GeoTIFF: " ++ ctLower
    ++ " :: " ++ bodyPreview chunks

/-- The chunk-writing loop: `for chunk in r.iter_content(...)`, skipping
empty chunks, accumulating contents and the byte count `n`. -/
def streamBody (chunks : List String) : String × Nat :=
  chunks.foldl
    (fun acc ch => if ch = "" then acc else (acc.1 ++ ch, acc.2 + ch.length))
    ("", 0)

/-- One iteration of the `try` block of `_download_with_retries`: issue the
GET, `raise_for_status`, run the GeoTIFF content-type guard, stream the body
to the temporary sibling path, and on full completion rename it onto
`outPath`.  Returns the filesystem after the attempt and the attempt's
result. -/
def attemptOnce (outPath : String) (f : FetchOutcome) (fs : FS) :
    FS × AttemptResult :=
  match f with
  | .connError ename emsg => (fs, .failure (errStr ename emsg))
  | .response status ct chunks interrupted =>
    if 400 ≤ status then
      (fs, .failure (httpErrorMsg status))
    else
      let ctL := lowerStr ct
      if pathSuffixLower outPath = ".tif"
          && (strHas ctL "xml" || strHas ctL "html") then
        (fs, .failure (mismatchMsg ctL chunks))
      else
        let bn := streamBody chunks
        let fs1 := fsWrite fs (tmpPath outPath) bn.1
        match interrupted with
        | some (ename, emsg) => (fs1, .failure (errStr ename emsg))
        | none => (fsReplace fs1 (tmpPath outPath) outPath, .success bn.2)

/-- The attempt's returned result, which does not depend on the incoming
filesystem. -/
def attemptResult (outPath : String) (f : FetchOutcome) : AttemptResult :=
  (attemptOnce outPath f []).2

/-- Whether the attempt fails (used to express "every attempt fails"). -/
def attemptFailed (outPath : String) (f : FetchOutcome) : Bool :=
  match attemptResult outPath f with
  | .failure _ => true
  | .success _ => false

/-- The message an attempt's failure carries. -/
def failMsg : AttemptResult → String
  | .failure e => e
  | .success _ => ""

/- ### The retry loop of `_download_with_retries` -/

/-- `min(60.0, x)`. -/
def capSleep (x : ℚ) : ℚ := if 60 ≤ x then 60 else x

/-- Everything `_download_with_retries` produces in our model: the returned
triple `(ok, bytes, err)`, the final filesystem, the number of attempts the
loop actually made, and the sequence of back-off sleeps it performed. -/
structure EngineResult where
  ok : Bool
  bytes : Nat
  err : String
  fs : FS
  attemptsUsed : Nat
  sleeps : List ℚ

/-- The loop `for attempt in range(1, max_attempts + 1)`, unrolled on the
number of remaining iterations.  On a failed attempt the partial temporary
file is removed, and when further attempts remain the loop sleeps
`min(60.0, backoff_s * 2 ** (attempt - 1))` before retrying. -/
def runRetries (outPath : String) (env : Nat → FetchOutcome) (backoff : ℚ) :
    Nat → Nat → FS → String → EngineResult
  | _, 0, fs, lastErr => ⟨false, 0, lastErr, fs, 0, []⟩
  | attempt, remaining + 1, fs, _lastErr =>
    let step := attemptOnce outPath (env attempt) fs
    match step.2 with
    | .success n => ⟨true, n, "", step.1, 1, []⟩
    | .failure e =>
      let fs2 := fsDelete step.1 (tmpPath outPath)
      if remaining = 0 then ⟨false, 0, e, fs2, 1, []⟩
      else
        let s := capSleep (backoff * 2 ^ (attempt - 1))
        let r := runRetries outPath env backoff (attempt + 1) remaining fs2 e
        ⟨r.ok, r.bytes, r.err, r.fs, r.attemptsUsed + 1, s :: r.sleeps⟩

/-- `_download_with_retries(session, url, out_path, ..., max_attempts,
backoff_s)`: run up to `maxAttempts` attempts starting from attempt 1 with
`last_err = ""`. -/
def downloadWithRetries (outPath : String) (env : Nat → FetchOutcome)
    (maxAttempts : Nat) (backoff : ℚ) (fs : FS) : EngineResult :=
  runRetries outPath env backoff 1 maxAttempts fs ""

/- ### Lexicographic string order (Python `sorted` on strings) -/

/-- Code-point lexicographic `≤` on character lists, as Python compares
strings. -/
def charsLe : List Char → List Char → Bool
  | [], _ => true
  | _ :: _, [] => false
  | a :: as, b :: bs =>
    if a.toNat < b.toNat then true
    else if a.toNat = b.toNat then charsLe as bs
    else false

/-- The order `sorted(...)` uses on identifiers. -/
def strLeR (a b : String) : Prop := charsLe a.data b.data = true

instance : DecidableRel strLeR :=
  fun a b => inferInstanceAs (Decidable (charsLe a.data b.data = true))

/-- `sorted({x for x in ids if matches_any(x)})`: the strictly ascending
enumeration of the matched set — deduplicate, then sort.  Sorting the
duplicate-free list is order-insensitive, so this is the Python value
exactly. -/
def sortedMatched (ids : List String) (matchesAny : String → Bool) :
    List String :=
  List.insertionSort strLeR ((ids.filter matchesAny).dedup)

/- ### `DownloadItem` and `_build_items_for_patterns` -/

/-- The dataclass `DownloadItem(kind, name, url, out_path, error="")`;
`out_path` is kept as a string (POSIX joining with `/`). -/
structure DownloadItem where
  kind : String
  name : String
  url : String
  outPath : String
  error : String
deriving DecidableEq, Repr

def DEFAULT_WFS_VERSION : String := "1.0.0"
def DEFAULT_WCS_VERSION : String := "2.0.1"

/-- The WFS GetFeature URL with `outputFormat=application/json`. -/
def geojsonUrl (base t : String) : String :=
  base ++ "/ows?service=WFS&version=" ++ DEFAULT_WFS_VERSION
    ++ "&request=GetFeature&typeName=" ++ t
    ++ "&outputFormat=application/json"

/-- The WFS GetFeature URL with the KML output format. -/
def kmlUrl (base t : String) : String :=
  base ++ "/ows?service=WFS&version=" ++ DEFAULT_WFS_VERSION
    ++ "&request=GetFeature&typeName=" ++ t
    ++ "&outputFormat=application/vnd.google-earth.kml+xml"

/-- The WCS GetCoverage URL. -/
def tifUrl (base cid : String) : String :=
  base ++ "/ows?service=WCS&version=" ++ DEFAULT_WCS_VERSION
    ++ "&request=GetCoverage&CoverageId=" ++ cid ++ "&format=geotiff"
    ++ "&compression=LZW&tiling=true&tileheight=256&tilewidth=256"

/-- The geojson item built for one matched typename. -/
def vecGeojsonItem (outDir base t : String) : DownloadItem :=
  ⟨"vector_geojson", t, geojsonUrl base t,
    outDir ++ "/vectors_geojson/" ++ safeFilename t ++ ".geojson", ""⟩

/-- The KML item built for one matched typename. -/
def vecKmlItem (outDir base t : String) : DownloadItem :=
  ⟨"vector_kml", t, kmlUrl base t,
    outDir ++ "/vectors_kml/" ++ safeFilename t ++ ".kml", ""⟩

/-- The GeoTIFF item built for one matched coverage id. -/
def rasterItem (outDir base cid : String) : DownloadItem :=
  ⟨"raster_geotiff", cid, tifUrl base cid,
    outDir ++ "/rasters_geotiff/" ++ safeFilename cid ++ ".tif", ""⟩

/-- `_build_items_for_patterns`.  The compiled regex list is abstracted by
its only use: the predicate `matches_any` (`any(rx.search(s) for rx in
rx_list)`), so every theorem below quantifies over arbitrary pattern
semantics.  Vectors are emitted first (matched typenames in sorted order,
geojson before KML for each), then, when rasters are included, the matched
coverage ids in sorted order. -/
def buildItemsForPatterns (typenames coverageIds : List String)
    (matchesAny : String → Bool) (outDir geoserverBase : String)
    (includeRasters : Bool) : List DownloadItem :=
  let base := rstripSlash geoserverBase
  let matchedTypes := sortedMatched typenames matchesAny
  let vecItems := matchedTypes.flatMap
    (fun t => [vecGeojsonItem outDir base t, vecKmlItem outDir base t])
  let rasterItems :=
    if includeRasters then
      (sortedMatched coverageIds matchesAny).map (rasterItem outDir base)
    else []
  vecItems ++ rasterItems

/- ### Capability parsers -/

/-- Skip `\s*`. -/
def skipWs (cs : List Char) : List Char := cs.dropWhile pyIsSpace

/-- Match a literal word case-insensitively (regex `re.IGNORECASE`),
returning the rest on success. -/
def matchCI : List Char → List Char → Option (List Char)
  | [], rest => some rest
  | _ :: _, [] => none
  | w :: ws, c :: cs => if lowerChar w == lowerChar c then matchCI ws cs else none

/-- Match one literal character. -/
def expectChar (ch : Char) : List Char → Option (List Char)
  | [] => none
  | c :: cs => if c == ch then some cs else none

/-- The capture group `([^<]+)`: a maximal nonempty run of non-`<`
characters (greedy, and no shorter capture can be followed by the
mandatory `<`, so there is no backtracking ambiguity). -/
def takeCapture (cs : List Char) : Option (List Char × List Char) :=
  let cap := cs.takeWhile (fun c => c ≠ '<')
  if cap.isEmpty then none else some (cap, cs.drop cap.length)

/-- Attempt the WFS pattern `<\s*Name\s*>([^<]+)<\s*/\s*Name\s*>` at the
head of the input, returning the capture and the rest. -/
def tryMatchName (cs : List Char) : Option (List Char × List Char) :=
  (expectChar '<' cs).bind fun r1 =>
  (matchCI "name".data (skipWs r1)).bind fun r2 =>
  (expectChar '>' (skipWs r2)).bind fun r3 =>
  (takeCapture r3).bind fun cr =>
  (expectChar '<' cr.2).bind fun r5 =>
  (expectChar '/' (skipWs r5)).bind fun r6 =>
  (matchCI "name".data (skipWs r6)).bind fun r7 =>
  (expectChar '>' (skipWs r7)).map fun r8 => (cr.1, r8)

/-- `(?:wcs:)?`: optionally consume a case-insensitive `wcs:`.  (When the
prefix is present but the following tag fails, the regex's backtracked
alternative fails as well — `w` never begins `CoverageId` — so committing is
equivalent.) -/
def optWcs (cs : List Char) : List Char :=
  match matchCI "wcs:".data cs with
  | some r => r
  | none => cs

/-- Attempt the WCS pattern
`<\s*(?:wcs:)?CoverageId\s*>([^<]+)<\s*/\s*(?:wcs:)?CoverageId\s*>`. -/
def tryMatchCoverageId (cs : List Char) : Option (List Char × List Char) :=
  (expectChar '<' cs).bind fun r1 =>
  (matchCI "coverageid".data (optWcs (skipWs r1))).bind fun r2 =>
  (expectChar '>' (skipWs r2)).bind fun r3 =>
  (takeCapture r3).bind fun cr =>
  (expectChar '<' cr.2).bind fun r5 =>
  (expectChar '/' (skipWs r5)).bind fun r6 =>
  (matchCI "coverageid".data (optWcs (skipWs r6))).bind fun r7 =>
  (expectChar '>' (skipWs r7)).map fun r8 => (cr.1, r8)

/-- `re.findall` scanning: try the pattern at each position, left to right;
on a match emit the capture and resume after it, otherwise advance one
character.  Fuel (the input length) bounds the recursion; every step
consumes at least one character, so the fuel never runs out before the
input does. -/
def scanFor (tryM : List Char → Option (List Char × List Char)) :
    Nat → List Char → List String
  | 0, _ => []
  | _ + 1, [] => []
  | fuel + 1, c :: cs =>
    match tryM (c :: cs) with
    | some (cap, rest) => String.mk cap :: scanFor tryM fuel rest
    | none => scanFor tryM fuel cs

/-- `re.findall(r"<\s*Name\s*>([^<]+)<\s*/\s*Name\s*>", xml, re.IGNORECASE)`. -/
def findAllNames (xml : String) : List String :=
  scanFor tryMatchName xml.data.length xml.data

/-- `re.findall` of the CoverageId pattern. -/
def findAllCoverageIds (xml : String) : List String :=
  scanFor tryMatchCoverageId xml.data.length xml.data

/-- `_parse_wfs_typenames`: `[n.strip() for n in names if ":" in n]`. -/
def parseWfsTypenames (xml : String) : List String :=
  ((findAllNames xml).filter hasColon).map pyStrip

/-- `_parse_wcs_coverage_ids`: `[i.strip() for i in ids if i.strip()]`. -/
def parseWcsCoverageIds (xml : String) : List String :=
  ((findAllCoverageIds xml).filter (fun i => pyStrip i ≠ "")).map pyStrip

/- ### The per-item loop of `main` and the manifest writer -/

/-- Outcome of the download loop of `main`: the final filesystem, the three
counters, how many times the Transfer Engine was invoked (a network
transfer), and `updated_items`. -/
structure RunOutcome where
  fs : FS
  downloaded : Nat
  skipped : Nat
  failed : Nat
  engineCalls : Nat
  updatedItems : List DownloadItem

/-- `it.out_path.exists() and it.out_path.stat().st_size > 0`. -/
def existsOk (fs : FS) (p : String) : Bool :=
  match fsLookup fs p with
  | some c => 0 < c.length
  | none => false

/-- The `for it in items:` loop of `main`.  `envOf it` is the network oracle
for the item's URL; `main` always passes `backoff_s=2.0`.  An item whose
destination exists non-empty is skipped (with or without `--only-missing`,
as in the source's two consecutive checks); otherwise the Transfer Engine
runs and the item is re-recorded with its error message. -/
def processItems (envOf : DownloadItem → Nat → FetchOutcome)
    (maxAttempts : Nat) (onlyMissing : Bool) :
    List DownloadItem → FS → RunOutcome
  | [], fs => ⟨fs, 0, 0, 0, 0, []⟩
  | it :: rest, fs =>
    let exOk := existsOk fs it.outPath
    if exOk && onlyMissing then
      let r := processItems envOf maxAttempts onlyMissing rest fs
      ⟨r.fs, r.downloaded, r.skipped + 1, r.failed, r.engineCalls,
        it :: r.updatedItems⟩
    else if exOk then
      let r := processItems envOf maxAttempts onlyMissing rest fs
      ⟨r.fs, r.downloaded, r.skipped + 1, r.failed, r.engineCalls,
        it :: r.updatedItems⟩
    else
      let d := downloadWithRetries it.outPath (envOf it) maxAttempts 2 fs
      let r := processItems envOf maxAttempts onlyMissing rest d.fs
      if d.ok then
        ⟨r.fs, r.downloaded + 1, r.skipped, r.failed, r.engineCalls + 1,
          ⟨it.kind, it.name, it.url, it.outPath, ""⟩ :: r.updatedItems⟩
      else
        ⟨r.fs, r.downloaded, r.skipped, r.failed + 1, r.engineCalls + 1,
          ⟨it.kind, it.name, it.url, it.outPath, d.err⟩ :: r.updatedItems⟩

/-- One row of `manifest.csv` (`exists` is a Lean keyword, hence `found`;
the empty size cell written for a missing file is `none`).  The source
writes `out_path` relative to the workspace root; relativisation is not
modelled. -/
structure ManifestRow where
  kind : String
  name : String
  url : String
  outPath : String
  found : Bool
  size : Option Nat
  error : String
deriving DecidableEq, Repr

/-- `_write_manifest`: one row per item, in item order, reading existence
and size from disk at write time. -/
def manifestRows (fs : FS) (items : List DownloadItem) : List ManifestRow :=
  items.map fun it =>
    match fsLookup fs it.outPath with
    | some c => ⟨it.kind, it.name, it.url, it.outPath, true, some c.length, it.error⟩
    | none => ⟨it.kind, it.name, it.url, it.outPath, false, none, it.error⟩

/-- `main` returns `None` and never raises `SystemExit` from item outcomes,
so the process exit code is 0 whatever the counters hold. -/
def runExitCode (_ : RunOutcome) : Nat := 0

/- ### Filesystem lemmas -/

theorem fsLookup_fsDelete (fs : FS) (p q : String) :
    fsLookup (fsDelete fs p) q = if p = q then none else fsLookup fs q := by
  induction fs with
  | nil => simp only [fsDelete, List.filter_nil, fsLookup]; split <;> rfl
  | cons e rest ih =>
    obtain ⟨r, c⟩ := e
    simp only [fsDelete, List.filter_cons] at ih ⊢
    by_cases hrp : r = p
    · subst hrp
      rw [if_neg (by simp)]
      simp only [ne_eq] at ih
      rw [ih]
      by_cases hq : r = q
      · simp [hq]
      · simp [hq, fsLookup, hq]
    · rw [if_pos (by simp [hrp])]
      simp only [fsLookup]
      by_cases hq : r = q
      · have hpq : ¬ p = q := fun h => hrp (hq.trans h.symm)
        simp [hq, hpq]
      · simp only [if_neg hq]
        simp only [ne_eq] at ih
        exact ih

theorem fsLookup_fsWrite (fs : FS) (p c q) :
    fsLookup (fsWrite fs p c) q = if p = q then some c else fsLookup fs q := by
  simp only [fsWrite, fsLookup]
  by_cases h : p = q
  · simp [h]
  · simp only [if_neg h, fsLookup_fsDelete, if_neg h]

theorem ne_tmpPath (p : String) : p ≠ tmpPath p := by
  intro h
  have h2 := congrArg String.length h
  rw [tmpPath, String.length_append] at h2
  have h5 : (".part" : String).length = 5 := rfl
  omega

theorem fsReplace_write (fs : FS) (tmp dst : String) (body : String) :
    fsReplace (fsWrite fs tmp body) tmp dst =
      fsWrite (fsDelete (fsWrite fs tmp body) tmp) dst body := by
  simp [fsReplace, fsLookup_fsWrite]

/- ### Per-attempt lemmas -/

theorem attemptOnce_snd (outPath : String) (f : FetchOutcome) (fs : FS) :
    (attemptOnce outPath f fs).2 = attemptResult outPath f := by
  cases f with
  | connError a b => rfl
  | response st ct chunks intr =>
    by_cases h4 : 400 ≤ st
    · simp [attemptOnce, attemptResult, h4]
    · by_cases hg : (pathSuffixLower outPath = ".tif"
          && (strHas (lowerStr ct) "xml" || strHas (lowerStr ct) "html")) = true
      · simp [attemptOnce, attemptResult, h4, hg]
      · cases intr with
        | some ee => simp [attemptOnce, attemptResult, h4, hg]
        | none => simp [attemptOnce, attemptResult, h4, hg]

theorem attemptOnce_fail_lookup (outPath : String) (f : FetchOutcome)
    (fs : FS) (q : String) (hq : q ≠ tmpPath outPath) (e : String)
    (hf : (attemptOnce outPath f fs).2 = .failure e) :
    fsLookup (attemptOnce outPath f fs).1 q = fsLookup fs q := by
  cases f with
  | connError a b => rfl
  | response st ct chunks intr =>
    by_cases h4 : 400 ≤ st
    · simp [attemptOnce, h4]
    · by_cases hg : (pathSuffixLower outPath = ".tif"
          && (strHas (lowerStr ct) "xml" || strHas (lowerStr ct) "html")) = true
      · simp [attemptOnce, h4, hg]
      · cases intr with
        | some ee =>
          obtain ⟨n1, n2⟩ := ee
          simp only [attemptOnce]
          rw [if_neg h4, if_neg hg]
          rw [fsLookup_fsWrite, if_neg (fun h => hq h.symm)]
        | none =>
          simp [attemptOnce, h4, hg] at hf

theorem attemptOnce_ok (outPath : String) (f : FetchOutcome) (fs : FS)
    (n : Nat) (h : (attemptOnce outPath f fs).2 = .success n) :
    ∃ st ct chunks, f = .response st ct chunks none ∧ st < 400 ∧
      n = (streamBody chunks).2 ∧
      (attemptOnce outPath f fs).1 =
        fsReplace (fsWrite fs (tmpPath outPath) (streamBody chunks).1)
          (tmpPath outPath) outPath := by
  cases f with
  | connError a b => exact absurd h (by simp [attemptOnce])
  | response st ct chunks intr =>
    by_cases h4 : 400 ≤ st
    · exact absurd h (by simp [attemptOnce, h4])
    · by_cases hg : (pathSuffixLower outPath = ".tif"
          && (strHas (lowerStr ct) "xml" || strHas (lowerStr ct) "html")) = true
      · exact absurd h (by simp [attemptOnce, h4, hg])
      · cases intr with
        | some ee => exact absurd h (by simp [attemptOnce, h4, hg])
        | none =>
          have hn : n = (streamBody chunks).2 := by
            have := h
            simp [attemptOnce, h4, hg] at this
            exact this.symm
          exact ⟨st, ct, chunks, rfl, by omega, hn,
            by simp [attemptOnce, h4, hg]⟩

/- ### Retry-loop lemmas -/

theorem runRetries_fail_lookup (outPath : String) (env : Nat → FetchOutcome)
    (b : ℚ) : ∀ (rem att : Nat) (fs : FS) (le : String),
    (runRetries outPath env b att rem fs le).ok = false →
    fsLookup (runRetries outPath env b att rem fs le).fs outPath
        = fsLookup fs outPath ∧
    (1 ≤ rem →
      fsLookup (runRetries outPath env b att rem fs le).fs (tmpPath outPath)
        = none) := by
  intro rem
  induction rem with
  | zero => intro att fs le _; exact ⟨rfl, by omega⟩
  | succ rm ih =>
    intro att fs le hok
    simp only [runRetries] at hok ⊢
    cases hres : (attemptOnce outPath (env att) fs).2 with
    | success n => simp only [hres] at hok; simp at hok
    | failure e =>
      simp only [hres] at hok ⊢
      have hout : fsLookup (attemptOnce outPath (env att) fs).1 outPath
          = fsLookup fs outPath :=
        attemptOnce_fail_lookup outPath (env att) fs outPath
          (ne_tmpPath outPath) e hres
      by_cases hrm : rm = 0
      · subst hrm
        rw [if_pos rfl]
        constructor
        · rw [fsLookup_fsDelete,
            if_neg (fun h => ne_tmpPath outPath h.symm), hout]
        · intro _
          rw [fsLookup_fsDelete, if_pos rfl]
      · simp only [if_neg hrm] at hok ⊢
        have ihs := ih (att + 1)
          (fsDelete (attemptOnce outPath (env att) fs).1 (tmpPath outPath)) e
          hok
        refine ⟨?_, fun _ => ihs.2 (by omega)⟩
        rw [ihs.1, fsLookup_fsDelete,
          if_neg (fun h => ne_tmpPath outPath h.symm), hout]

theorem runRetries_ok_lookup (outPath : String) (env : Nat → FetchOutcome)
    (b : ℚ) : ∀ (rem att : Nat) (fs : FS) (le : String),
    (runRetries outPath env b att rem fs le).ok = true →
    ∃ k st ct chunks, att ≤ k ∧ k < att + rem ∧
      env k = .response st ct chunks none ∧ st < 400 ∧
      (runRetries outPath env b att rem fs le).bytes
        = (streamBody chunks).2 ∧
      fsLookup (runRetries outPath env b att rem fs le).fs outPath
        = some (streamBody chunks).1 ∧
      fsLookup (runRetries outPath env b att rem fs le).fs (tmpPath outPath)
        = none := by
  intro rem
  induction rem with
  | zero => intro att fs le hok; simp [runRetries] at hok
  | succ rm ih =>
    intro att fs le hok
    simp only [runRetries] at hok ⊢
    cases hres : (attemptOnce outPath (env att) fs).2 with
    | success n =>
      simp only [hres]
      obtain ⟨st, ct, chunks, henv, hst, hn, hfs⟩ :=
        attemptOnce_ok outPath (env att) fs n hres
      refine ⟨att, st, ct, chunks, le_refl att, by omega, henv, hst, hn, ?_, ?_⟩
      · rw [hfs, fsReplace_write, fsLookup_fsWrite, if_pos rfl]
      · rw [hfs, fsReplace_write, fsLookup_fsWrite,
          if_neg (ne_tmpPath outPath), fsLookup_fsDelete, if_pos rfl]
    | failure e =>
      simp only [hres] at hok ⊢
      by_cases hrm : rm = 0
      · subst hrm
        simp only [if_pos rfl] at hok
        simp at hok
      · simp only [if_neg hrm] at hok ⊢
        obtain ⟨k, st, ct, chunks, hk1, hk2, henv, hst, hb, ho, ht⟩ :=
          ih (att + 1)
            (fsDelete (attemptOnce outPath (env att) fs).1 (tmpPath outPath))
            e hok
        exact ⟨k, st, ct, chunks, by omega, by omega, henv, hst, hb, ho, ht⟩

theorem runRetries_allFail (outPath : String) (env : Nat → FetchOutcome)
    (b : ℚ) (hf : ∀ k, attemptFailed outPath (env k) = true) :
    ∀ (rem att : Nat) (fs : FS) (le : String), 1 ≤ rem → 1 ≤ att →
    (runRetries outPath env b att rem fs le).ok = false ∧
    (runRetries outPath env b att rem fs le).attemptsUsed = rem ∧
    (runRetries outPath env b att rem fs le).err
      = failMsg (attemptResult outPath (env (att + rem - 1))) ∧
    (runRetries outPath env b att rem fs le).sleeps
      = (List.range (rem - 1)).map
          (fun i => capSleep (b * 2 ^ (att - 1 + i))) := by
  intro rem
  induction rem with
  | zero => intro att fs le h1; omega
  | succ rm ih =>
    intro att fs le _ hatt
    have hfa := hf att
    rw [attemptFailed] at hfa
    simp only [runRetries]
    cases hres : (attemptOnce outPath (env att) fs).2 with
    | success n =>
      rw [attemptOnce_snd] at hres
      rw [hres] at hfa
      simp at hfa
    | failure e =>
      have hmsg : failMsg (attemptResult outPath (env att)) = e := by
        rw [← attemptOnce_snd outPath (env att) fs, hres]; rfl
      simp only [hres]
      by_cases hrm : rm = 0
      · subst hrm
        rw [if_pos rfl]
        refine ⟨rfl, rfl, ?_, by simp⟩
        simpa using hmsg.symm
      · simp only [if_neg hrm]
        obtain ⟨ih1, ih2, ih3, ih4⟩ := ih (att + 1)
          (fsDelete (attemptOnce outPath (env att) fs).1 (tmpPath outPath))
          e (by omega) (by omega)
        refine ⟨ih1, by rw [ih2], ?_, ?_⟩
        · rw [ih3, show att + 1 + rm - 1 = att + (rm + 1) - 1 from by omega]
        · rw [ih4]
          rw [show rm + 1 - 1 = (rm - 1) + 1 from by omega,
            List.range_succ_eq_map, List.map_cons, List.map_map]
          congr 1
          apply List.map_congr_left
          intro i _
          simp only [Function.comp_apply, Nat.succ_eq_add_one]
          rw [show att + 1 - 1 + i = att - 1 + (i + 1) from by omega]

theorem capSleep_mono {x y : ℚ} (hxy : x ≤ y) : capSleep x ≤ capSleep y := by
  unfold capSleep
  split_ifs <;> linarith

theorem capSleep_strict {x y : ℚ} (hx : capSleep x < 60) (hxy : x < y) :
    capSleep x < capSleep y := by
  unfold capSleep at hx ⊢
  split_ifs at hx ⊢ <;> linarith

theorem attemptOnce_nontif_ok (outPath : String) (st : Nat) (ct : String)
    (chunks : List String) (fs : FS)
    (hnt : pathSuffixLower outPath ≠ ".tif") (hst : st < 400) :
    attemptOnce outPath (.response st ct chunks none) fs =
      (fsReplace (fsWrite fs (tmpPath outPath) (streamBody chunks).1)
        (tmpPath outPath) outPath,
       .success (streamBody chunks).2) := by
  simp [attemptOnce, hnt, show ¬ 400 ≤ st from by omega]

theorem attemptOnce_mismatch (outPath : String) (st : Nat) (ct : String)
    (chunks : List String) (intr : Option (String × String)) (fs : FS)
    (htif : pathSuffixLower outPath = ".tif") (hst : st < 400)
    (hct : strHas (lowerStr ct) "xml" = true
      ∨ strHas (lowerStr ct) "html" = true) :
    attemptOnce outPath (.response st ct chunks intr) fs
      = (fs, .failure (mismatchMsg (lowerStr ct) chunks)) := by
  have hg : (pathSuffixLower outPath = ".tif"
      && (strHas (lowerStr ct) "xml" || strHas (lowerStr ct) "html")) = true := by
    rcases hct with h | h <;> simp [htif, h]
  simp [attemptOnce, show ¬ 400 ≤ st from by omega, hg]

/- ### Orchestration-loop lemmas -/

theorem processItems_skip_all (envOf : DownloadItem → Nat → FetchOutcome)
    (m : Nat) (om : Bool) : ∀ (items : List DownloadItem) (fs : FS),
    (∀ it ∈ items, existsOk fs it.outPath = true) →
    processItems envOf m om items fs
      = ⟨fs, 0, items.length, 0, 0, items⟩ := by
  intro items
  induction items with
  | nil => intro fs _; rfl
  | cons it rest ih =>
    intro fs h
    have hex : existsOk fs it.outPath = true :=
      h it (List.mem_cons_self it rest)
    have hrest := ih fs (fun x hx => h x (List.mem_cons_of_mem it hx))
    cases om with
    | true =>
      simp only [processItems, hex, Bool.and_true, if_pos trivial, hrest,
        List.length_cons]
    | false =>
      simp only [processItems, hex, Bool.and_false, Bool.false_eq_true,
        if_false, if_pos trivial, hrest, List.length_cons]

theorem processItems_noFail_updated
    (envOf : DownloadItem → Nat → FetchOutcome) (m : Nat) (om : Bool) :
    ∀ (items : List DownloadItem) (fs : FS),
    (processItems envOf m om items fs).failed = 0 →
    (∀ it ∈ items, it.error = "") →
    (processItems envOf m om items fs).updatedItems = items := by
  intro items
  induction items with
  | nil => intro fs _ _; rfl
  | cons it rest ih =>
    intro fs hfail herr
    have herr1 : it.error = "" := herr it (List.mem_cons_self it rest)
    have herrs : ∀ x ∈ rest, x.error = "" :=
      fun x hx => herr x (List.mem_cons_of_mem it hx)
    simp only [processItems] at hfail ⊢
    by_cases h1 : (existsOk fs it.outPath && om) = true
    · rw [if_pos h1] at hfail ⊢
      rw [ih fs hfail herrs]
    · rw [if_neg h1] at hfail ⊢
      by_cases h2 : existsOk fs it.outPath = true
      · rw [if_pos h2] at hfail ⊢
        rw [ih fs hfail herrs]
      · rw [if_neg h2] at hfail ⊢
        by_cases hok : (downloadWithRetries it.outPath (envOf it) m 2 fs).ok
          = true
        · rw [if_pos hok] at hfail ⊢
          rw [ih _ hfail herrs]
          have : (⟨it.kind, it.name, it.url, it.outPath, ""⟩ : DownloadItem)
              = it := by
            cases it
            simp_all
          rw [this]
        · rw [if_neg hok] at hfail ⊢
          simp at hfail

/- ### Order lemmas for the identifier sort -/

theorem charsLe_refl : ∀ a : List Char, charsLe a a = true := by
  intro a
  induction a with
  | nil => rfl
  | cons x xs ih => simp [charsLe, ih]

theorem charsLe_total : ∀ a b : List Char,
    charsLe a b = true ∨ charsLe b a = true := by
  intro a
  induction a with
  | cons x xs ih =>
    intro b
    cases b with
    | nil => right; rfl
    | cons y ys =>
      by_cases hlt : x.toNat < y.toNat
      · left; simp [charsLe, hlt]
      · by_cases heq : x.toNat = y.toNat
        · rcases ih ys with h | h
          · left; simp [charsLe, hlt, heq, h]
          · right; simp [charsLe, heq.symm, show ¬ y.toNat < x.toNat from
              by omega, h]
        · right; simp [charsLe, show y.toNat < x.toNat from by omega]
  | nil => intro b; left; rfl

theorem charsLe_trans : ∀ a b c : List Char,
    charsLe a b = true → charsLe b c = true → charsLe a c = true := by
  intro a
  induction a with
  | nil => intro b c _ _; rfl
  | cons x xs ih =>
    intro b c hab hbc
    cases b with
    | nil => simp [charsLe] at hab
    | cons y ys =>
      cases c with
      | nil => simp [charsLe] at hbc
      | cons z zs =>
        simp only [charsLe] at hab hbc ⊢
        split_ifs at hab hbc ⊢ <;>
          first
            | rfl
            | (exact ih ys zs hab hbc)
            | omega

instance : IsTotal String strLeR :=
  ⟨fun a b => charsLe_total a.data b.data⟩

instance : IsTrans String strLeR :=
  ⟨fun a b c hab hbc => charsLe_trans a.data b.data c.data hab hbc⟩

theorem sortedMatched_nodup (ids : List String) (m : String → Bool) :
    (sortedMatched ids m).Nodup :=
  ((List.perm_insertionSort strLeR _).nodup_iff).mpr
    (List.nodup_dedup _)

theorem mem_sortedMatched {ids : List String} {m : String → Bool}
    {t : String} :
    t ∈ sortedMatched ids m ↔ t ∈ ids ∧ m t = true := by
  rw [sortedMatched, (List.perm_insertionSort strLeR _).mem_iff,
    List.mem_dedup, List.mem_filter]

theorem sortedMatched_sorted (ids : List String) (m : String → Bool) :
    List.Sorted strLeR (sortedMatched ids m) :=
  List.sorted_insertionSort strLeR _

/-- The plan builder's output, spelled out: the vector pairs of the sorted
matched typenames, followed (when rasters are on) by the raster items of the
sorted matched coverage ids. -/
theorem buildItems_eq (tns covs : List String) (m : String → Bool)
    (od b : String) (inc : Bool) :
    buildItemsForPatterns tns covs m od b inc
      = (sortedMatched tns m).flatMap (fun t =>
          [vecGeojsonItem od (rstripSlash b) t,
           vecKmlItem od (rstripSlash b) t])
        ++ (if inc then
              (sortedMatched covs m).map (rasterItem od (rstripSlash b))
            else []) := rfl

/- ### Counting lemmas for the plan builder -/

theorem countP_vec_pairs_geojson (od base t : String) :
    ∀ l : List String, l.Nodup →
    ((l.flatMap fun u => [vecGeojsonItem od base u, vecKmlItem od base u]).countP
        (fun it => it.name == t && it.kind == "vector_geojson"))
      = if t ∈ l then 1 else 0 := by
  intro l
  induction l with
  | nil => intro _; simp
  | cons u us ih =>
    intro hnd
    rw [List.nodup_cons] at hnd
    rw [List.flatMap_cons, List.countP_append, ih hnd.2]
    by_cases hut : u = t
    · subst hut
      simp [List.countP_cons, vecGeojsonItem, vecKmlItem, hnd.1]
    · have htu : ¬ t = u := fun h => hut h.symm
      simp [List.countP_cons, vecGeojsonItem, vecKmlItem, hut, htu,
        List.mem_cons]

theorem countP_vec_pairs_kml (od base t : String) :
    ∀ l : List String, l.Nodup →
    ((l.flatMap fun u => [vecGeojsonItem od base u, vecKmlItem od base u]).countP
        (fun it => it.name == t && it.kind == "vector_kml"))
      = if t ∈ l then 1 else 0 := by
  intro l
  induction l with
  | nil => intro _; simp
  | cons u us ih =>
    intro hnd
    rw [List.nodup_cons] at hnd
    rw [List.flatMap_cons, List.countP_append, ih hnd.2]
    by_cases hut : u = t
    · subst hut
      simp [List.countP_cons, vecGeojsonItem, vecKmlItem, hnd.1]
    · have htu : ¬ t = u := fun h => hut h.symm
      simp [List.countP_cons, vecGeojsonItem, vecKmlItem, hut, htu,
        List.mem_cons]

theorem countP_raster_map (od base t : String) :
    ∀ l : List String, l.Nodup →
    ((l.map (rasterItem od base)).countP
        (fun it => it.name == t && it.kind == "raster_geotiff"))
      = if t ∈ l then 1 else 0 := by
  intro l
  induction l with
  | nil => intro _; simp
  | cons u us ih =>
    intro hnd
    rw [List.nodup_cons] at hnd
    rw [List.map_cons, List.countP_cons, ih hnd.2]
    by_cases hut : u = t
    · subst hut
      simp [rasterItem, hnd.1]
    · have htu : ¬ t = u := fun h => hut h.symm
      simp [rasterItem, hut, htu, List.mem_cons]

theorem countP_vec_pairs_raster_zero (od base t : String)
    (l : List String) :
    ((l.flatMap fun u => [vecGeojsonItem od base u, vecKmlItem od base u]).countP
        (fun it => it.name == t && it.kind == "raster_geotiff")) = 0 := by
  rw [List.countP_eq_zero]
  intro it hit
  rw [List.mem_flatMap] at hit
  obtain ⟨u, _, hu⟩ := hit
  rcases List.mem_pair.mp hu with rfl | rfl
  · simp [vecGeojsonItem]
  · simp [vecKmlItem]

theorem countP_raster_vec_zero (od base t : String) (kd : String)
    (hkd : kd = "vector_geojson" ∨ kd = "vector_kml") (l : List String) :
    ((l.map (rasterItem od base)).countP
        (fun it => it.name == t && it.kind == kd)) = 0 := by
  rw [List.countP_eq_zero]
  intro it hit
  rw [List.mem_map] at hit
  obtain ⟨u, _, hu⟩ := hit
  subst hu
  rcases hkd with h | h <;> subst h <;> simp [rasterItem]

/- ### Destination-path distinctness lemmas -/

theorem getLast_vg (od base t : String) :
    (vecGeojsonItem od base t).outPath.data.getLast? = some 'n' := by
  simp only [vecGeojsonItem, String.data_append]
  rw [List.getLast?_append_of_ne_nil _ (by simp)]
  rfl

theorem getLast_vk (od base t : String) :
    (vecKmlItem od base t).outPath.data.getLast? = some 'l' := by
  simp only [vecKmlItem, String.data_append]
  rw [List.getLast?_append_of_ne_nil _ (by simp)]
  rfl

theorem getLast_rt (od base t : String) :
    (rasterItem od base t).outPath.data.getLast? = some 'f' := by
  simp only [rasterItem, String.data_append]
  rw [List.getLast?_append_of_ne_nil _ (by simp)]
  rfl

theorem path_inj_gen (pre ext : String) {s1 s2 : String}
    (h : pre ++ s1 ++ ext = pre ++ s2 ++ ext) : s1 = s2 := by
  have hd := congrArg String.data h
  simp only [String.data_append] at hd
  exact String.ext (List.append_cancel_left (List.append_cancel_right hd))

theorem vg_path_inj {od base t u : String}
    (h : (vecGeojsonItem od base t).outPath
      = (vecGeojsonItem od base u).outPath) :
    safeFilename t = safeFilename u :=
  path_inj_gen (od ++ "/vectors_geojson/") ".geojson" h

theorem vk_path_inj {od base t u : String}
    (h : (vecKmlItem od base t).outPath = (vecKmlItem od base u).outPath) :
    safeFilename t = safeFilename u :=
  path_inj_gen (od ++ "/vectors_kml/") ".kml" h

theorem rt_path_inj {od base t u : String}
    (h : (rasterItem od base t).outPath = (rasterItem od base u).outPath) :
    safeFilename t = safeFilename u :=
  path_inj_gen (od ++ "/rasters_geotiff/") ".tif" h

theorem vg_path_ne_vk (od base base2 t u : String) :
    (vecGeojsonItem od base t).outPath ≠ (vecKmlItem od base2 u).outPath := by
  intro h
  have h1 := getLast_vg od base t
  rw [h, getLast_vk] at h1
  simp at h1

theorem vg_path_ne_rt (od base base2 t u : String) :
    (vecGeojsonItem od base t).outPath
      ≠ (rasterItem od base2 u).outPath := by
  intro h
  have h1 := getLast_vg od base t
  rw [h, getLast_rt] at h1
  simp at h1

theorem vk_path_ne_rt (od base base2 t u : String) :
    (vecKmlItem od base t).outPath ≠ (rasterItem od base2 u).outPath := by
  intro h
  have h1 := getLast_vk od base t
  rw [h, getLast_rt] at h1
  simp at h1

theorem nodup_vec_paths (od base : String) : ∀ l : List String, l.Nodup →
    (∀ x ∈ l, ∀ y ∈ l, safeFilename x = safeFilename y → x = y) →
    (l.flatMap (fun t => [(vecGeojsonItem od base t).outPath,
        (vecKmlItem od base t).outPath])).Nodup := by
  intro l
  induction l with
  | nil => intro _ _; simp
  | cons t ts ih =>
    intro hnd hinj
    rw [List.nodup_cons] at hnd
    rw [List.flatMap_cons, List.nodup_append]
    refine ⟨?_, ih hnd.2 (fun x hx y hy =>
      hinj x (List.mem_cons_of_mem t hx) y (List.mem_cons_of_mem t hy)), ?_⟩
    · simp [vg_path_ne_vk od base base t t]
    · intro p hp hq
      rw [List.mem_flatMap] at hq
      obtain ⟨u, hu, hpu⟩ := hq
      have htu : t ≠ u := fun he => hnd.1 (he ▸ hu)
      rcases List.mem_pair.mp hp with rfl | rfl
      · rcases List.mem_pair.mp hpu with he | he
        · exact htu (hinj t (List.mem_cons_self t ts) u
            (List.mem_cons_of_mem t hu) (vg_path_inj he))
        · exact vg_path_ne_vk od base base t u he
      · rcases List.mem_pair.mp hpu with he | he
        · exact vg_path_ne_vk od base base u t he.symm
        · exact htu (hinj t (List.mem_cons_self t ts) u
            (List.mem_cons_of_mem t hu) (vk_path_inj he))

theorem processItems_visits_all (envOf : DownloadItem → Nat → FetchOutcome)
    (m : Nat) (om : Bool) : ∀ (l : List DownloadItem) (g : FS),
    (processItems envOf m om l g).updatedItems.map
        (fun it => (it.kind, it.name, it.url, it.outPath))
      = l.map (fun it => (it.kind, it.name, it.url, it.outPath)) ∧
    (processItems envOf m om l g).downloaded
      + (processItems envOf m om l g).skipped
      + (processItems envOf m om l g).failed = l.length := by
  intro l
  induction l with
  | nil => intro g; exact ⟨rfl, rfl⟩
  | cons it rest ih =>
    intro g
    simp only [processItems]
    by_cases h1 : (existsOk g it.outPath && om) = true
    · rw [if_pos h1]
      obtain ⟨ihm, ihc⟩ := ih g
      refine ⟨by simp [ihm], by simp; omega⟩
    · rw [if_neg h1]
      by_cases h2 : existsOk g it.outPath = true
      · rw [if_pos h2]
        obtain ⟨ihm, ihc⟩ := ih g
        refine ⟨by simp [ihm], by simp; omega⟩
      · rw [if_neg h2]
        by_cases hok : (downloadWithRetries it.outPath (envOf it) m 2
          g).ok = true
        · rw [if_pos hok]
          obtain ⟨ihm, ihc⟩ := ih
            (downloadWithRetries it.outPath (envOf it) m 2 g).fs
          refine ⟨by simp [ihm], by simp; omega⟩
        · rw [if_neg hok]
          obtain ⟨ihm, ihc⟩ := ih
            (downloadWithRetries it.outPath (envOf it) m 2 g).fs
          refine ⟨by simp [ihm], by simp; omega⟩

/-- The per-item loop is a fold: processing `l1 ++ l2` runs `l1` first, then
`l2` from the filesystem `l1` left behind, adding counters and concatenating
the updated items. -/
theorem processItems_append (envOf : DownloadItem → Nat → FetchOutcome)
    (m : Nat) (om : Bool) : ∀ (l1 l2 : List DownloadItem) (fs : FS),
    processItems envOf m om (l1 ++ l2) fs =
      ⟨(processItems envOf m om l2
          (processItems envOf m om l1 fs).fs).fs,
       (processItems envOf m om l1 fs).downloaded
         + (processItems envOf m om l2
            (processItems envOf m om l1 fs).fs).downloaded,
       (processItems envOf m om l1 fs).skipped
         + (processItems envOf m om l2
            (processItems envOf m om l1 fs).fs).skipped,
       (processItems envOf m om l1 fs).failed
         + (processItems envOf m om l2
            (processItems envOf m om l1 fs).fs).failed,
       (processItems envOf m om l1 fs).engineCalls
         + (processItems envOf m om l2
            (processItems envOf m om l1 fs).fs).engineCalls,
       (processItems envOf m om l1 fs).updatedItems
         ++ (processItems envOf m om l2
            (processItems envOf m om l1 fs).fs).updatedItems⟩ := by
  intro l1
  induction l1 with
  | nil =>
    intro l2 fs
    simp [processItems]
  | cons it rest ih =>
    intro l2 fs
    simp only [List.cons_append, processItems, List.append_eq]
    by_cases h1 : (existsOk fs it.outPath && om) = true
    · simp only [if_pos h1, ih]
      congr 1
      omega
    · simp only [if_neg h1]
      by_cases h2 : existsOk fs it.outPath = true
      · simp only [if_pos h2, ih]
        congr 1
        omega
      · simp only [if_neg h2]
        by_cases hok : (downloadWithRetries it.outPath (envOf it) m 2
          fs).ok = true
        · simp only [if_pos hok, ih]
          congr 1 <;> first | rfl | omega
        · simp only [if_neg hok, ih]
          congr 1 <;> first | rfl | omega

/-- The first updated item of a run: the planned item itself when its
destination already exists non-empty, otherwise the item re-recorded with
the Transfer Engine's outcome — empty error on success, the engine's error
message on failure. -/
theorem processItems_head (envOf : DownloadItem → Nat → FetchOutcome)
    (m : Nat) (om : Bool) (it : DownloadItem) (rest : List DownloadItem)
    (fs : FS) :
    (processItems envOf m om (it :: rest) fs).updatedItems.head? =
      some (if existsOk fs it.outPath then it
        else if (downloadWithRetries it.outPath (envOf it) m 2 fs).ok = true
          then ⟨it.kind, it.name, it.url, it.outPath, ""⟩
          else ⟨it.kind, it.name, it.url, it.outPath,
            (downloadWithRetries it.outPath (envOf it) m 2 fs).err⟩) := by
  simp only [processItems]
  by_cases hex : existsOk fs it.outPath = true
  · by_cases hom : om = true
    · rw [if_pos (by simp [hex, hom])]
      simp [hex]
    · rw [if_neg (by simp [hom]), if_pos hex]
      simp [hex]
  · rw [if_neg (by simp [hex]), if_neg hex]
    by_cases hok : (downloadWithRetries it.outPath (envOf it) m 2 fs).ok
      = true
    · rw [if_pos hok]
      simp [hex, hok]
    · rw [if_neg hok]
      simp [hex, hok]

/-- The manifest's error column is exactly the items' error fields, in
order: whatever `lastError` holds is what the manifest surfaces. -/
theorem manifestRows_error_map (fs : FS) (items : List DownloadItem) :
    (manifestRows fs items).map (fun r => r.error)
      = items.map (fun it => it.error) := by
  rw [manifestRows, List.map_map]
  apply List.map_congr_left
  intro it _
  simp only [Function.comp_apply]
  cases fsLookup fs it.outPath <;> rfl

/- ### Capability-parser lemmas -/

theorem mem_dropWhile_of {p : Char → Bool} {c : Char} (hc : p c = false) :
    ∀ {l : List Char}, c ∈ l → c ∈ l.dropWhile p := by
  intro l
  induction l with
  | nil => intro h; cases h
  | cons a as ih =>
    intro h
    rw [List.dropWhile_cons]
    by_cases hpa : p a = true
    · rw [if_pos hpa]
      rcases List.mem_cons.mp h with rfl | h2
      · rw [hpa] at hc; cases hc
      · exact ih h2
    · rw [if_neg hpa]
      exact h

theorem mem_stripChars {c : Char} (hc : pyIsSpace c = false)
    {cs : List Char} (h : c ∈ cs) : c ∈ stripChars cs := by
  rw [stripChars, List.mem_reverse]
  apply mem_dropWhile_of hc
  rw [List.mem_reverse]
  exact mem_dropWhile_of hc h

/- ### Claim theorems -/

/-- C1: for every download item and every execution of the Transfer Engine,
a failure at any point (connection drop, mid-stream exception, content-type
rejection) never touches `destinationPath` — after a failed run the
destination is exactly what it was before, and the temporary sibling has
been removed before the run retried or gave up; a successful run leaves the
complete, uninterrupted body of some attempt's response at the destination
(and no temporary file).  So any file the engine produces at the destination
is whole. -/
theorem download_atomicity (outPath : String) (env : Nat → FetchOutcome)
    (maxAttempts : Nat) (backoff : ℚ) (fs0 : FS) (hm : 1 ≤ maxAttempts) :
    ((downloadWithRetries outPath env maxAttempts backoff fs0).ok = false →
      fsLookup (downloadWithRetries outPath env maxAttempts backoff fs0).fs
          outPath = fsLookup fs0 outPath ∧
      fsLookup (downloadWithRetries outPath env maxAttempts backoff fs0).fs
          (tmpPath outPath) = none) ∧
    ((downloadWithRetries outPath env maxAttempts backoff fs0).ok = true →
      ∃ k st ct chunks, 1 ≤ k ∧ k ≤ maxAttempts ∧
        env k = .response st ct chunks none ∧
        fsLookup (downloadWithRetries outPath env maxAttempts backoff fs0).fs
            outPath = some (streamBody chunks).1 ∧
        fsLookup (downloadWithRetries outPath env maxAttempts backoff fs0).fs
            (tmpPath outPath) = none) := by
  constructor
  · intro hok
    have h := runRetries_fail_lookup outPath env backoff maxAttempts 1 fs0 ""
      hok
    exact ⟨h.1, h.2 hm⟩
  · intro hok
    obtain ⟨k, st, ct, chunks, hk1, hk2, henv, _, _, ho, ht⟩ :=
      runRetries_ok_lookup outPath env backoff maxAttempts 1 fs0 "" hok
    exact ⟨k, st, ct, chunks, hk1, by omega, henv, ho, ht⟩

/-- Witness for C1: a run whose both attempts drop mid-stream leaves neither
a destination file nor a temporary file. -/
theorem download_atomicity_witness :
    fsLookup (downloadWithRetries "a.tif"
      (fun _ => FetchOutcome.response 200 "image/tiff" ["AB"]
        (some ("ChunkedEncodingError", "broken"))) 2 2 []).fs "a.tif"
      = none ∧
    fsLookup (downloadWithRetries "a.tif"
      (fun _ => FetchOutcome.response 200 "image/tiff" ["AB"]
        (some ("ChunkedEncodingError", "broken"))) 2 2 []).fs
      (tmpPath "a.tif") = none := by
  have h := (download_atomicity "a.tif"
    (fun _ => FetchOutcome.response 200 "image/tiff" ["AB"]
      (some ("ChunkedEncodingError", "broken"))) 2 2 [] (by decide)).1
    (by decide)
  exact ⟨h.1.trans rfl, h.2⟩

/-- C2 counterexample: the claim says a permanent classification (a
non-retryable HTTP status such as 404 not-found) stops retrying immediately,
consuming no further attempts.  In the code both `except` arms fall through
to the same retry path, so a constant-404 item is attempted 3 times out of
`max_attempts = 3` rather than once. -/
theorem permanent_failure_retried_counterexample :
    (downloadWithRetries "f.geojson"
      (fun _ => FetchOutcome.response 404 "text/xml" [] none) 3 2
      []).attemptsUsed = 3 ∧
    (downloadWithRetries "f.geojson"
      (fun _ => FetchOutcome.response 404 "text/xml" [] none) 3 2
      []).ok = false := by
  exact ⟨rfl, rfl⟩

/-- C2 amended: no failure classification shortens the retry loop — every
failing attempt, including non-retryable HTTP statuses and content
mismatches, is retried until exactly `maxAttempts` attempts have been
consumed, and only then is the item reported failed. -/
theorem all_failures_retried (outPath : String) (env : Nat → FetchOutcome)
    (maxAttempts : Nat) (backoff : ℚ) (fs0 : FS) (hm : 1 ≤ maxAttempts)
    (hf : ∀ k, attemptFailed outPath (env k) = true) :
    (downloadWithRetries outPath env maxAttempts backoff fs0).attemptsUsed
      = maxAttempts ∧
    (downloadWithRetries outPath env maxAttempts backoff fs0).ok = false := by
  obtain ⟨h1, h2, _, _⟩ := runRetries_allFail outPath env backoff hf
    maxAttempts 1 fs0 "" hm (by omega)
  exact ⟨h2, h1⟩

/-- Witness for C2's amended theorem: a constant not-found item consumes all
5 attempts. -/
theorem all_failures_retried_witness :
    (downloadWithRetries "g.geojson"
      (fun _ => FetchOutcome.response 404 "" [] none) 5 2
      []).attemptsUsed = 5 :=
  (all_failures_retried "g.geojson"
    (fun _ => FetchOutcome.response 404 "" [] none) 5 2 [] (by decide)
    (fun _ => rfl)).1

/-- C3: a 2xx response for a `.tif` destination that declares an XML or HTML
content type aborts the attempt before anything is written (the filesystem
is returned untouched), classifies the outcome as a content mismatch whose
message records the offending (lowercased) content type, and — the guard
holding on every attempt — the engine ends failed with that message, the
destination unchanged and no temporary file left. -/
theorem tif_content_mismatch_guard (outPath : String) (st : Nat)
    (ct : String) (chunks : List String) (intr : Option (String × String))
    (fs : FS) (env : Nat → FetchOutcome) (m : Nat) (b : ℚ)
    (htif : pathSuffixLower outPath = ".tif") (hst : st < 400)
    (hct : strHas (lowerStr ct) "xml" = true
      ∨ strHas (lowerStr ct) "html" = true)
    (henv : ∀ k, env k = .response st ct chunks intr) (hm : 1 ≤ m) :
    attemptOnce outPath (.response st ct chunks intr) fs
      = (fs, .failure (mismatchMsg (lowerStr ct) chunks)) ∧
    (downloadWithRetries outPath env m b fs).ok = false ∧
    (downloadWithRetries outPath env m b fs).err
      = mismatchMsg (lowerStr ct) chunks ∧
    fsLookup (downloadWithRetries outPath env m b fs).fs outPath
      = fsLookup fs outPath ∧
    fsLookup (downloadWithRetries outPath env m b fs).fs (tmpPath outPath)
      = none := by
  have hatt := attemptOnce_mismatch outPath st ct chunks intr fs htif hst hct
  have hres : attemptResult outPath (env 0) = .failure
      (mismatchMsg (lowerStr ct) chunks) := by
    rw [attemptResult, henv 0,
      attemptOnce_mismatch outPath st ct chunks intr [] htif hst hct]
  have hf : ∀ k, attemptFailed outPath (env k) = true := by
    intro k
    rw [attemptFailed, henv k, show attemptResult outPath
      (.response st ct chunks intr) = .failure
        (mismatchMsg (lowerStr ct) chunks) from by
      rw [attemptResult,
        attemptOnce_mismatch outPath st ct chunks intr [] htif hst hct]]
  obtain ⟨h1, _, h3, _⟩ := runRetries_allFail outPath env b hf m 1 fs ""
    hm (by omega)
  have hfl := runRetries_fail_lookup outPath env b m 1 fs "" h1
  refine ⟨hatt, h1, ?_, hfl.1, hfl.2 hm⟩
  show (runRetries outPath env b 1 m fs "").err
    = mismatchMsg (lowerStr ct) chunks
  rw [h3, henv (1 + m - 1), show attemptResult outPath
    (.response st ct chunks intr) = .failure
      (mismatchMsg (lowerStr ct) chunks) from by
    rw [attemptResult,
      attemptOnce_mismatch outPath st ct chunks intr [] htif hst hct]]
  rfl

/-- Witness for C3: a GeoServer XML exception page offered for a `.tif`
destination is rejected on both attempts; nothing is written and the error
records the content type. -/
theorem tif_content_mismatch_guard_witness :
    (downloadWithRetries "r.tif"
      (fun _ => FetchOutcome.response 200 "text/XML; charset=UTF-8"
        ["<ows:Exception/>"] none) 2 2 []).err
      = mismatchMsg (lowerStr "text/XML; charset=UTF-8")
          ["<ows:Exception/>"] ∧
    fsLookup (downloadWithRetries "r.tif"
      (fun _ => FetchOutcome.response 200 "text/XML; charset=UTF-8"
        ["<ows:Exception/>"] none) 2 2 []).fs "r.tif" = none := by
  have h := tif_content_mismatch_guard "r.tif" 200 "text/XML; charset=UTF-8"
    ["<ows:Exception/>"] none []
    (fun _ => FetchOutcome.response 200 "text/XML; charset=UTF-8"
      ["<ows:Exception/>"] none) 2 2 (by decide) (by decide)
    (Or.inl (by decide)) (fun _ => rfl) (by decide)
  exact ⟨h.2.2.1, h.2.2.2.1.trans rfl⟩

/-- C4 counterexample: the claim asserts strictly increasing capped delays.
With `max_attempts = 8` (a value the CLI accepts) and the engine's base
backoff `2.0`, a persistently failing transient connection sleeps
2, 4, 8, 16, 32, 60, 60 seconds — the cap makes the last two delays equal,
so the delays are not strictly increasing. -/
theorem backoff_not_strictly_increasing_counterexample :
    (downloadWithRetries "f.geojson"
      (fun _ => FetchOutcome.connError "ConnectionError" "reset") 8 2
      []).sleeps = [2, 4, 8, 16, 32, 60, 60] ∧
    ¬ List.Chain' (fun a b : ℚ => a < b)
      (downloadWithRetries "f.geojson"
        (fun _ => FetchOutcome.connError "ConnectionError" "reset") 8 2
        []).sleeps := by
  have h := (runRetries_allFail "f.geojson"
    (fun _ => FetchOutcome.connError "ConnectionError" "reset") 2
    (fun _ => rfl) 8 1 [] "" (by omega) (by omega)).2.2.2
  rw [downloadWithRetries] at *
  rw [h]
  have hlist : (List.range (8 - 1)).map
      (fun i => capSleep (2 * 2 ^ (1 - 1 + i)))
      = ([2, 4, 8, 16, 32, 60, 60] : List ℚ) := by
    norm_num [List.range_succ, capSleep]
  rw [hlist]
  refine ⟨rfl, fun hc => ?_⟩
  simp only [List.chain'_cons, List.chain'_singleton, and_true] at hc
  have h60 : (60 : ℚ) < 60 := hc.2.2.2.2.2
  linarith

/-- C4 amended: a persistently failing item is attempted exactly
`maxAttempts` times, then recorded failed with the last attempt's error
message; the delay before retry `k+1` is `min(60, backoff * 2^(k-1))` —
these delays are nondecreasing, and strictly increasing as long as the
previous delay is still below the 60-second ceiling (for positive backoff).
They stop increasing once the ceiling is reached. -/
theorem retry_ceiling_and_backoff (outPath : String)
    (env : Nat → FetchOutcome) (maxAttempts : Nat) (backoff : ℚ) (fs0 : FS)
    (hm : 1 ≤ maxAttempts) (hb : 0 ≤ backoff)
    (hf : ∀ k, attemptFailed outPath (env k) = true) :
    (downloadWithRetries outPath env maxAttempts backoff fs0).attemptsUsed
      = maxAttempts ∧
    (downloadWithRetries outPath env maxAttempts backoff fs0).ok = false ∧
    (downloadWithRetries outPath env maxAttempts backoff fs0).err
      = failMsg (attemptResult outPath (env maxAttempts)) ∧
    (downloadWithRetries outPath env maxAttempts backoff fs0).sleeps
      = (List.range (maxAttempts - 1)).map
          (fun i => capSleep (backoff * 2 ^ i)) ∧
    List.Chain' (fun a b : ℚ => a ≤ b)
      (downloadWithRetries outPath env maxAttempts backoff fs0).sleeps ∧
    (0 < backoff → ∀ i, capSleep (backoff * 2 ^ i) < 60 →
      capSleep (backoff * 2 ^ i) < capSleep (backoff * 2 ^ (i + 1))) := by
  obtain ⟨h1, h2, h3, h4⟩ := runRetries_allFail outPath env backoff hf
    maxAttempts 1 fs0 "" hm (by omega)
  have hs : (downloadWithRetries outPath env maxAttempts backoff fs0).sleeps
      = (List.range (maxAttempts - 1)).map
        (fun i => capSleep (backoff * 2 ^ i)) := by
    rw [downloadWithRetries, h4]
    apply List.map_congr_left
    intro i _
    rw [show 1 - 1 + i = i from by omega]
  refine ⟨h2, h1, ?_, hs, ?_, ?_⟩
  · rw [downloadWithRetries, h3, show 1 + maxAttempts - 1 = maxAttempts from
      by omega]
  · rw [hs]
    rw [List.chain'_map]
    cases maxAttempts - 1 with
    | zero => simp
    | succ n =>
      rw [List.chain'_range_succ]
      intro i _
      apply capSleep_mono
      have h2i : (2 : ℚ) ^ i ≤ 2 ^ (i.succ) := by
        apply pow_le_pow_right₀ (by norm_num) (by omega)
      exact mul_le_mul_of_nonneg_left h2i hb
  · intro hbp i hlt
    apply capSleep_strict hlt
    have h2i : (0 : ℚ) < 2 ^ i := by positivity
    rw [pow_succ]
    nlinarith

/-- Witness for C4's amended theorem: the default 6-attempt run against a
persistently resetting connection makes exactly 6 attempts and sleeps
2, 4, 8, 16, 32 seconds. -/
theorem retry_ceiling_and_backoff_witness :
    (downloadWithRetries "h.geojson"
      (fun _ => FetchOutcome.connError "ConnectionError" "reset") 6 2
      []).attemptsUsed = 6 ∧
    (downloadWithRetries "h.geojson"
      (fun _ => FetchOutcome.connError "ConnectionError" "reset") 6 2
      []).sleeps = (List.range 5).map (fun i => capSleep (2 * 2 ^ i)) := by
  have h := retry_ceiling_and_backoff "h.geojson"
    (fun _ => FetchOutcome.connError "ConnectionError" "reset") 6 2 []
    (by decide) (by decide) (fun _ => rfl)
  exact ⟨h.1, h.2.2.2.1⟩

/-- C10: for a destination that is not a `.tif`, the engine performs no
content-type check at all: any sub-400 response — whatever its declared
content type, including textual error markup — is streamed whole to the
temporary file, renamed onto the destination, and reported as a successful
transfer with its byte count. -/
theorem vector_no_content_check (outPath : String) (env : Nat → FetchOutcome)
    (m : Nat) (b : ℚ) (fs0 : FS) (st : Nat) (ct : String)
    (chunks : List String)
    (hnt : pathSuffixLower outPath ≠ ".tif") (hst : st < 400) (hm : 1 ≤ m)
    (henv : env 1 = .response st ct chunks none) :
    (downloadWithRetries outPath env m b fs0).ok = true ∧
    (downloadWithRetries outPath env m b fs0).bytes
      = (streamBody chunks).2 ∧
    fsLookup (downloadWithRetries outPath env m b fs0).fs outPath
      = some (streamBody chunks).1 := by
  obtain ⟨mm, rfl⟩ : ∃ mm, m = mm + 1 := ⟨m - 1, by omega⟩
  have hstep : attemptOnce outPath (env 1) fs0 =
      (fsReplace (fsWrite fs0 (tmpPath outPath) (streamBody chunks).1)
        (tmpPath outPath) outPath,
       .success (streamBody chunks).2) := by
    rw [henv]
    exact attemptOnce_nontif_ok outPath st ct chunks fs0 hnt hst
  simp only [downloadWithRetries, runRetries, hstep]
  refine ⟨by trivial, by trivial, ?_⟩
  rw [fsReplace_write, fsLookup_fsWrite, if_pos rfl]

/-- Witness for C10: an HTML error page served with status 200 for a
GeoJSON destination is happily saved and counted as a success. -/
theorem vector_no_content_check_witness :
    (downloadWithRetries "v/a_b.geojson"
      (fun _ => FetchOutcome.response 200 "text/html"
        ["<html>Internal Server Error</html>"] none) 6 2 []).ok = true ∧
    fsLookup (downloadWithRetries "v/a_b.geojson"
      (fun _ => FetchOutcome.response 200 "text/html"
        ["<html>Internal Server Error</html>"] none) 6 2 []).fs
      "v/a_b.geojson"
      = some (streamBody ["<html>Internal Server Error</html>"]).1 := by
  have h := vector_no_content_check "v/a_b.geojson"
    (fun _ => FetchOutcome.response 200 "text/html"
      ["<html>Internal Server Error</html>"] none) 6 2 [] 200 "text/html"
    ["<html>Internal Server Error</html>"] (by decide) (by decide)
    (by decide) rfl
  exact ⟨h.1, h.2.2⟩

/-- C6: an item whose destination already exists with non-zero size is
skipped without invoking the Transfer Engine; consequently, after a run in
which nothing failed and every destination is materialized non-empty, a
second run over the same plan performs zero engine invocations, changes
nothing on disk, and writes a manifest identical in content to the first
run's. -/
theorem second_run_idempotent (envOf : DownloadItem → Nat → FetchOutcome)
    (m : Nat) (om : Bool) (items : List DownloadItem) (fs0 : FS)
    (hfail : (processItems envOf m om items fs0).failed = 0)
    (hmat : ∀ it ∈ items,
      existsOk (processItems envOf m om items fs0).fs it.outPath = true)
    (herr : ∀ it ∈ items, it.error = "") :
    (processItems envOf m om items
        (processItems envOf m om items fs0).fs).engineCalls = 0 ∧
    (processItems envOf m om items
        (processItems envOf m om items fs0).fs).downloaded = 0 ∧
    (processItems envOf m om items
        (processItems envOf m om items fs0).fs).skipped = items.length ∧
    (processItems envOf m om items
        (processItems envOf m om items fs0).fs).fs
      = (processItems envOf m om items fs0).fs ∧
    (processItems envOf m om items
        (processItems envOf m om items fs0).fs).updatedItems = items ∧
    manifestRows (processItems envOf m om items
        (processItems envOf m om items fs0).fs).fs
      (processItems envOf m om items
        (processItems envOf m om items fs0).fs).updatedItems
      = manifestRows (processItems envOf m om items fs0).fs
          (processItems envOf m om items fs0).updatedItems := by
  have h2 := processItems_skip_all envOf m om items
    (processItems envOf m om items fs0).fs hmat
  have h1 := processItems_noFail_updated envOf m om items fs0 hfail herr
  rw [h2, h1]
  exact ⟨rfl, rfl, rfl, rfl, rfl, rfl⟩

/-- Witness for C6: one item downloaded on the first run; the second run
skips it, leaves the filesystem alone, and reproduces the manifest. -/
theorem second_run_idempotent_witness :
    (processItems
        (fun _ _ => FetchOutcome.response 200 "application/json" ["{}"] none)
        1 false
        [⟨"vector_geojson", "ns:a", "http://u", "o/v/ns_a.geojson", ""⟩]
        (processItems
          (fun _ _ => FetchOutcome.response 200 "application/json" ["{}"]
            none)
          1 false
          [⟨"vector_geojson", "ns:a", "http://u", "o/v/ns_a.geojson", ""⟩]
          []).fs).engineCalls = 0 ∧
    (processItems
        (fun _ _ => FetchOutcome.response 200 "application/json" ["{}"] none)
        1 false
        [⟨"vector_geojson", "ns:a", "http://u", "o/v/ns_a.geojson", ""⟩]
        (processItems
          (fun _ _ => FetchOutcome.response 200 "application/json" ["{}"]
            none)
          1 false
          [⟨"vector_geojson", "ns:a", "http://u", "o/v/ns_a.geojson", ""⟩]
          []).fs).fs
      = (processItems
          (fun _ _ => FetchOutcome.response 200 "application/json" ["{}"]
            none)
          1 false
          [⟨"vector_geojson", "ns:a", "http://u", "o/v/ns_a.geojson", ""⟩]
          []).fs := by
  have h := second_run_idempotent
    (fun _ _ => FetchOutcome.response 200 "application/json" ["{}"] none)
    1 false
    [⟨"vector_geojson", "ns:a", "http://u", "o/v/ns_a.geojson", ""⟩]
    [] (by decide) (by decide) (by decide)
  exact ⟨h.1, h.2.2.2.1⟩

/-- C7: once a plan exists no per-item outcome aborts the run — the loop is
total, visits every item exactly once (the updated list preserves each
item's kind, name, URL and destination in order), the manifest written after
the batch has one row per planned item whose error column is exactly the
items' `lastError` fields, the planned count splits exactly into
downloaded + skipped + failed, the process exit code is 0 regardless of the
failed count, and every failure is captured in the item's `lastError`: the
item at position `i` is re-recorded, from the filesystem state the previous
items left behind, either unchanged (skipped), or with error `""` when its
engine run succeeded, or with the engine run's error message when it
failed. -/
theorem run_never_aborts (envOf : DownloadItem → Nat → FetchOutcome)
    (m : Nat) (om : Bool) (items : List DownloadItem) (fs : FS) :
    (processItems envOf m om items fs).updatedItems.map
        (fun it => (it.kind, it.name, it.url, it.outPath))
      = items.map (fun it => (it.kind, it.name, it.url, it.outPath)) ∧
    (manifestRows (processItems envOf m om items fs).fs
        (processItems envOf m om items fs).updatedItems).length
      = items.length ∧
    (processItems envOf m om items fs).downloaded
      + (processItems envOf m om items fs).skipped
      + (processItems envOf m om items fs).failed = items.length ∧
    runExitCode (processItems envOf m om items fs) = 0 ∧
    (manifestRows (processItems envOf m om items fs).fs
        (processItems envOf m om items fs).updatedItems).map
        (fun r => r.error)
      = (processItems envOf m om items fs).updatedItems.map
        (fun it => it.error) ∧
    (∀ (i : Nat) (it : DownloadItem), items[i]? = some it →
      (processItems envOf m om items fs).updatedItems[i]?
        = some (if existsOk
              (processItems envOf m om (items.take i) fs).fs it.outPath
            then it
            else if (downloadWithRetries it.outPath (envOf it) m 2
                (processItems envOf m om (items.take i) fs).fs).ok = true
              then ⟨it.kind, it.name, it.url, it.outPath, ""⟩
              else ⟨it.kind, it.name, it.url, it.outPath,
                (downloadWithRetries it.outPath (envOf it) m 2
                  (processItems envOf m om (items.take i) fs).fs).err⟩)) := by
  obtain ⟨hmap, hcount⟩ := processItems_visits_all envOf m om items fs
  have hlen : (processItems envOf m om items fs).updatedItems.length
      = items.length := by
    have := congrArg List.length hmap
    simpa using this
  refine ⟨hmap, ?_, hcount, rfl, manifestRows_error_map _ _, ?_⟩
  · rw [manifestRows, List.length_map, hlen]
  · intro i it hit
    obtain ⟨hlt, hgot⟩ := List.getElem?_eq_some_iff.mp hit
    have heq : items = items.take i ++ (it :: items.drop (i + 1)) := by
      rw [← hgot, ← List.drop_eq_getElem_cons hlt]
      exact (List.take_append_drop i items).symm
    have hpre : (processItems envOf m om (items.take i) fs).updatedItems.length
        = i := by
      have hc := (processItems_visits_all envOf m om (items.take i) fs).1
      have hl := congrArg List.length hc
      simp only [List.length_map, List.length_take] at hl
      omega
    have h1 : processItems envOf m om items fs
        = processItems envOf m om
            (items.take i ++ (it :: items.drop (i + 1))) fs := by
      rw [← heq]
    rw [h1, processItems_append]
    dsimp only
    rw [List.getElem?_append_right (by omega), hpre, Nat.sub_self,
      ← List.head?_eq_getElem?, processItems_head]

/-- Witness for C7: a run over one item whose every attempt returns 404
records that item failed with the engine's error message in `lastError`. -/
theorem run_never_aborts_witness :
    (processItems (fun _ _ => FetchOutcome.response 404 "" [] none) 1 false
        [⟨"vector_geojson", "ns:a", "http://u", "o/v/ns_a.geojson", ""⟩]
        []).updatedItems[0]?
      = some ⟨"vector_geojson", "ns:a", "http://u", "o/v/ns_a.geojson",
          errStr "HTTPError" "404"⟩ := by
  have h := (run_never_aborts
    (fun _ _ => FetchOutcome.response 404 "" [] none) 1 false
    [⟨"vector_geojson", "ns:a", "http://u", "o/v/ns_a.geojson", ""⟩]
    []).2.2.2.2.2 0
    ⟨"vector_geojson", "ns:a", "http://u", "o/v/ns_a.geojson", ""⟩
    (by decide)
  exact h.trans (by decide)

/-- C5 counterexample: the claim's output order — sort order of matched
identifiers, with the kind order vector-primary, vector-secondary, raster as
tie-break — would list the raster identifier `"a:z"` before the vector
identifiers `"b:x"`, `"c:y"`.  The builder instead emits all vector items
first and all raster items last, so the emitted name sequence is not sorted.
(The matcher `fun _ => true` is the semantics of the pattern list `[""]`.) -/
theorem plan_order_counterexample :
    ((buildItemsForPatterns ["b:x", "c:y"] ["a:z"] (fun _ => true) "o" "g"
        true).map (fun it => it.name))
      = ["b:x", "b:x", "c:y", "c:y", "a:z"] ∧
    ¬ List.Pairwise strLeR
      ((buildItemsForPatterns ["b:x", "c:y"] ["a:z"] (fun _ => true) "o" "g"
        true).map (fun it => it.name)) := by
  constructor
  · decide
  · decide

/-- C5 amended: the Plan Builder is a pure function of its inputs; with
rasters off it emits no raster item, and the rasters-on plan is the
rasters-off plan followed by the raster items; it emits exactly two items
(geojson then KML, adjacent) for each selected vector identifier and exactly
one item for each selected raster identifier; the output order is the
sorted matched vector identifiers (each contributing its primary/secondary
pair in that fixed order) followed by the sorted matched raster
identifiers — vectors always precede rasters, rather than all identifiers
being globally interleaved in sort order. -/
theorem plan_builder_structure (tns covs : List String) (m : String → Bool)
    (od b : String) :
    (∀ it ∈ buildItemsForPatterns tns covs m od b false,
      it.kind ≠ "raster_geotiff") ∧
    buildItemsForPatterns tns covs m od b true
      = buildItemsForPatterns tns covs m od b false
        ++ (sortedMatched covs m).map (rasterItem od (rstripSlash b)) ∧
    (buildItemsForPatterns tns covs m od b true).length
      = 2 * (sortedMatched tns m).length + (sortedMatched covs m).length ∧
    (buildItemsForPatterns tns covs m od b true).map (fun it => it.name)
      = (sortedMatched tns m).flatMap (fun t => [t, t])
        ++ sortedMatched covs m ∧
    (buildItemsForPatterns tns covs m od b true).map (fun it => it.kind)
      = (sortedMatched tns m).flatMap
          (fun _ => ["vector_geojson", "vector_kml"])
        ++ (sortedMatched covs m).map (fun _ => "raster_geotiff") ∧
    List.Sorted strLeR (sortedMatched tns m) ∧
    List.Sorted strLeR (sortedMatched covs m) ∧
    (∀ t ∈ tns, m t = true →
      ((buildItemsForPatterns tns covs m od b true).countP
        (fun it => it.name == t && it.kind == "vector_geojson")) = 1 ∧
      ((buildItemsForPatterns tns covs m od b true).countP
        (fun it => it.name == t && it.kind == "vector_kml")) = 1) ∧
    (∀ c ∈ covs, m c = true →
      ((buildItemsForPatterns tns covs m od b true).countP
        (fun it => it.name == c && it.kind == "raster_geotiff")) = 1) := by
  refine ⟨?_, ?_, ?_, ?_, ?_, sortedMatched_sorted tns m,
    sortedMatched_sorted covs m, ?_, ?_⟩
  · intro it hit
    rw [buildItems_eq] at hit
    simp only [if_neg (by simp : ¬ (false : Bool) = true),
      List.append_nil] at hit
    rw [List.mem_flatMap] at hit
    obtain ⟨u, _, hu⟩ := hit
    rcases List.mem_pair.mp hu with rfl | rfl
    · simp [vecGeojsonItem]
    · simp [vecKmlItem]
  · rw [buildItems_eq, buildItems_eq]
    simp
  · rw [buildItems_eq]
    rw [if_pos (by trivial)]
    rw [List.length_append, List.length_map]
    have hv : ∀ l : List String, (l.flatMap fun t =>
        [vecGeojsonItem od (rstripSlash b) t,
         vecKmlItem od (rstripSlash b) t]).length = 2 * l.length := by
      intro l
      induction l with
      | nil => rfl
      | cons x xs ih => simp [ih]; omega
    rw [hv]
  · rw [buildItems_eq]
    rw [if_pos (by trivial), List.map_append]
    congr 1
    · rw [List.map_flatMap]
      exact rfl
    · rw [List.map_map]
      exact List.map_id' _
  · rw [buildItems_eq]
    rw [if_pos (by trivial), List.map_append]
    congr 1
    · rw [List.map_flatMap]
      exact rfl
    · rw [List.map_map]
      exact rfl
  · intro t ht hmt
    have hmem : t ∈ sortedMatched tns m := mem_sortedMatched.mpr ⟨ht, hmt⟩
    rw [buildItems_eq]
    rw [if_pos (by trivial)]
    constructor
    · rw [List.countP_append,
        countP_vec_pairs_geojson od (rstripSlash b) t _
          (sortedMatched_nodup tns m),
        countP_raster_vec_zero od (rstripSlash b) t "vector_geojson"
          (Or.inl rfl)]
      simp [hmem]
    · rw [List.countP_append,
        countP_vec_pairs_kml od (rstripSlash b) t _
          (sortedMatched_nodup tns m),
        countP_raster_vec_zero od (rstripSlash b) t "vector_kml"
          (Or.inr rfl)]
      simp [hmem]
  · intro c hc hmc
    have hmem : c ∈ sortedMatched covs m := mem_sortedMatched.mpr ⟨hc, hmc⟩
    rw [buildItems_eq]
    rw [if_pos (by trivial)]
    rw [List.countP_append,
      countP_vec_pairs_raster_zero od (rstripSlash b) c,
      countP_raster_map od (rstripSlash b) c _ (sortedMatched_nodup covs m)]
    simp [hmem]

/-- Witness for C5's amended theorem: two typenames and one coverage id, all
matched — the geojson and KML items for `"ns:a"` are each emitted exactly
once, and the raster item for `"cov1"` exactly once. -/
theorem plan_builder_structure_witness :
    ((buildItemsForPatterns ["ns:b", "ns:a"] ["cov1"] (fun _ => true) "o"
        "g" true).countP
      (fun it => it.name == "ns:a" && it.kind == "vector_geojson")) = 1 ∧
    ((buildItemsForPatterns ["ns:b", "ns:a"] ["cov1"] (fun _ => true) "o"
        "g" true).countP
      (fun it => it.name == "cov1" && it.kind == "raster_geotiff")) = 1 := by
  have h := plan_builder_structure ["ns:b", "ns:a"] ["cov1"]
    (fun _ => true) "o" "g"
  exact ⟨(h.2.2.2.2.2.2.2.1 "ns:a" (by decide) (by decide)).1,
    h.2.2.2.2.2.2.2.2 "cov1" (by decide) (by decide)⟩

/-- C8 counterexample: the distinct matched identifiers `"a:b"` and `"a;b"`
sanitize to the same filename `"a_b"`, so the plan holds four pairwise
distinct items but only two distinct destination paths — `destinationPath`
is not unique per item. -/
theorem destination_collision_counterexample :
    (buildItemsForPatterns ["a:b", "a;b"] [] (fun _ => true) "o" "g"
      false).Nodup ∧
    ¬ ((buildItemsForPatterns ["a:b", "a;b"] [] (fun _ => true) "o" "g"
      false).map (fun it => it.outPath)).Nodup := by
  constructor
  · decide
  · decide

/-- C8 amended: destination paths are unique per item provided the
sanitized-truncated filename map is injective on the matched vector
identifiers and on the matched coverage identifiers (distinct kinds can
never collide: the three subdirectories and extensions differ). -/
theorem destination_paths_unique (tns covs : List String)
    (m : String → Bool) (od b : String) (inc : Bool)
    (hv : ∀ t1 ∈ tns, ∀ t2 ∈ tns, m t1 = true → m t2 = true →
      safeFilename t1 = safeFilename t2 → t1 = t2)
    (hc : ∀ c1 ∈ covs, ∀ c2 ∈ covs, m c1 = true → m c2 = true →
      safeFilename c1 = safeFilename c2 → c1 = c2) :
    ((buildItemsForPatterns tns covs m od b inc).map
      (fun it => it.outPath)).Nodup := by
  rw [buildItems_eq, List.map_append, List.nodup_append]
  refine ⟨?_, ?_, ?_⟩
  · rw [List.map_flatMap]
    have hinj : ∀ x ∈ sortedMatched tns m, ∀ y ∈ sortedMatched tns m,
        safeFilename x = safeFilename y → x = y := by
      intro x hx y hy
      obtain ⟨hx1, hx2⟩ := mem_sortedMatched.mp hx
      obtain ⟨hy1, hy2⟩ := mem_sortedMatched.mp hy
      exact hv x hx1 y hy1 hx2 hy2
    have h := nodup_vec_paths od (rstripSlash b) (sortedMatched tns m)
      (sortedMatched_nodup tns m) hinj
    simpa using h
  · cases inc with
    | false => simp
    | true =>
      rw [if_pos (by trivial), List.map_map]
      apply List.Nodup.map_on ?_ (sortedMatched_nodup covs m)
      intro x hx y hy hxy
      obtain ⟨hx1, hx2⟩ := mem_sortedMatched.mp hx
      obtain ⟨hy1, hy2⟩ := mem_sortedMatched.mp hy
      exact hc x hx1 y hy1 hx2 hy2 (rt_path_inj hxy)
  · intro p hp hq
    rw [List.map_flatMap, List.mem_flatMap] at hp
    obtain ⟨u, _, hpu⟩ := hp
    have hq2 : ∃ w, p = (rasterItem od (rstripSlash b) w).outPath := by
      cases inc with
      | false => simp at hq
      | true =>
        rw [if_pos (by trivial), List.map_map] at hq
        rw [List.mem_map] at hq
        obtain ⟨w, _, hw⟩ := hq
        exact ⟨w, hw.symm⟩
    obtain ⟨w, rfl⟩ := hq2
    simp only [List.map_cons, List.map_nil] at hpu
    rcases List.mem_pair.mp hpu with he | he
    · exact vg_path_ne_rt od (rstripSlash b) (rstripSlash b) u w he.symm
    · exact vk_path_ne_rt od (rstripSlash b) (rstripSlash b) u w he.symm

/-- Witness for C8's amended theorem: filesystem-safe identifiers collide
only when equal, so the four-item plan has four distinct destinations. -/
theorem destination_paths_unique_witness :
    ((buildItemsForPatterns ["ns:a", "ns:b"] ["ws__c"] (fun _ => true) "o"
      "g" true).map (fun it => it.outPath)).Nodup :=
  destination_paths_unique ["ns:a", "ns:b"] ["ws__c"] (fun _ => true) "o"
    "g" true (by decide) (by decide)

/-- C9 counterexample: `re.findall` keeps duplicates, and neither parser
deduplicates, so a capability document repeating a typename yields a list
with repeated identifiers — the output is not a list of unique identifier
strings.  (Deduplication happens later, in the Plan Builder's sorted-set.) -/
theorem parser_duplicates_counterexample :
    parseWfsTypenames "<Name>a:b</Name><Name>a:b</Name>" = ["a:b", "a:b"] ∧
    ¬ (parseWfsTypenames "<Name>a:b</Name><Name>a:b</Name>").Nodup := by
  constructor
  · decide
  · decide

/-- C9 amended: each parser returns the matches in document order, possibly
with duplicates; every vector identifier it returns contains the namespace
separator `:` (stripping whitespace never removes it), and every raster
coverage id it returns is a nonempty stripped string used as-is. -/
theorem parser_output_shape (xml : String) :
    (∀ n ∈ parseWfsTypenames xml, hasColon n = true) ∧
    (∀ i ∈ parseWcsCoverageIds xml, i ≠ "") := by
  constructor
  · intro n hn
    rw [parseWfsTypenames, List.mem_map] at hn
    obtain ⟨raw, hraw, rfl⟩ := hn
    have hcolon : hasColon raw = true := (List.mem_filter.mp hraw).2
    rw [hasColon] at hcolon ⊢
    have hm : ':' ∈ raw.data := by simpa using hcolon
    have hs : ':' ∈ stripChars raw.data :=
      mem_stripChars (by decide) hm
    rw [pyStrip]
    simpa using hs
  · intro i hi
    rw [parseWcsCoverageIds, List.mem_map] at hi
    obtain ⟨raw, hraw, rfl⟩ := hi
    have h2 := (List.mem_filter.mp hraw).2
    simpa using h2

/-- Witness for C9's amended theorem: the identifier parsed from a
well-formed entry carries its namespace separator. -/
theorem parser_output_shape_witness :
    hasColon "ns:x" = true :=
  (parser_output_shape "<Name> ns:x </Name>").1 "ns:x" (by decide)

end CoreStackPack
